import Mathlib

/-!
# Portfolio site and admin panel: a verification development

Shallow embedding of

* `admin/functions/api/get.js`  (`onRequestGet`)
* `admin/functions/api/put.js`  (`onRequestPut`)
* `admin/functions/_middleware.js` (`onRequest`)
* `src/script.js` (`toYearNumber`, `isSafeUrl`, `getUrlMeta`, `loadJson`,
  `createSafeLinkElement`, the project sort of `renderSite`, `buildErrorHtml`,
  `loadAllContent` and the top-level promise chain)

Browser and runtime primitives that the scripts call but do not define
(`new URL`, `String.prototype.localeCompare`, the numeric value of a string,
the text of a number) are fields of `Platform`; everything the scripts
themselves compute is a definition below.
-/

namespace Portfolio

/-! ## Strings as JavaScript sees them -/

/-- `String.prototype.startsWith` on the code points of the two strings. -/
def startsWith (s p : String) : Bool :=
  p.data.isPrefixOf s.data

/-- White space and line terminators removed by `String.prototype.trim`. -/
def isJsWhiteSpace (c : Char) : Bool :=
  let n := c.toNat
  n == 0x09 || n == 0x0A || n == 0x0B || n == 0x0C || n == 0x0D || n == 0x20 ||
  n == 0xA0 || n == 0x1680 || (0x2000 ≤ n && n ≤ 0x200A) || n == 0x2028 ||
  n == 0x2029 || n == 0x202F || n == 0x205F || n == 0x3000 || n == 0xFEFF

/-- `String.prototype.trim`. -/
def trim (s : String) : String :=
  ⟨((s.data.dropWhile isJsWhiteSpace).reverse.dropWhile isJsWhiteSpace).reverse⟩

/-! ## `JSON.parse` as a validator

`put.js` calls `JSON.parse(body)` only to learn whether it throws.  The
functions below decide the JSON grammar of ECMA-404 as `JSON.parse` applies it:
they return the unread rest of the input after one syntactic unit, or `none`
where `JSON.parse` throws a `SyntaxError`.  Every recursive call is made on a
proper suffix of the caller's input, so a fuel of one more than the length of
the text is never exhausted. -/

/-- The four white space characters of the JSON grammar. -/
def isJsonWs (c : Char) : Bool :=
  c == ' ' || c == '\t' || c == '\n' || c == '\r'

/-- Drop leading JSON white space. -/
def skipWs (cs : List Char) : List Char :=
  cs.dropWhile isJsonWs

/-- Hexadecimal digit of a `\u` escape. -/
def isHexDigit (c : Char) : Bool :=
  c.isDigit || ('a' ≤ c && c ≤ 'f') || ('A' ≤ c && c ≤ 'F')

/-- The characters of a string literal after its opening quote, up to and
including the closing quote. -/
def jsonStringBody : List Char → Option (List Char)
  | [] => none
  | '"' :: rest => some rest
  | '\\' :: 'u' :: a :: b :: c :: d :: rest =>
      if isHexDigit a && isHexDigit b && isHexDigit c && isHexDigit d
      then jsonStringBody rest else none
  | '\\' :: e :: rest =>
      if e == '"' || e == '\\' || e == '/' || e == 'b' || e == 'f' ||
         e == 'n' || e == 'r' || e == 't'
      then jsonStringBody rest else none
  | c :: rest =>
      if c == '\\' || c.toNat < 0x20 then none else jsonStringBody rest

/-- Drop leading decimal digits. -/
def skipDigits (cs : List Char) : List Char :=
  cs.dropWhile Char.isDigit

/-- One or more decimal digits. -/
def jsonDigits1 : List Char → Option (List Char)
  | c :: rest => if c.isDigit then some (skipDigits rest) else none
  | [] => none

/-- Optional fraction part of a number. -/
def jsonFrac : List Char → Option (List Char)
  | '.' :: rest => jsonDigits1 rest
  | cs => some cs

/-- Optional exponent part of a number. -/
def jsonExp : List Char → Option (List Char)
  | c :: rest =>
      if c == 'e' || c == 'E' then
        match rest with
        | s :: rest2 => if s == '+' || s == '-' then jsonDigits1 rest2 else jsonDigits1 rest
        | [] => none
      else some (c :: rest)
  | [] => some []

/-- The integer part of a number: `0`, or a non-zero digit followed by digits. -/
def jsonInt : List Char → Option (List Char)
  | '0' :: rest => some rest
  | c :: rest => if c.isDigit then some (skipDigits rest) else none
  | [] => none

/-- A JSON number. -/
def jsonNumber (cs : List Char) : Option (List Char) :=
  let body := match cs with
    | '-' :: rest => rest
    | _ => cs
  (jsonInt body).bind fun r1 => (jsonFrac r1).bind jsonExp

/-- Consume the literal `lit` from the front of `cs`. -/
def jsonLiteral (lit cs : List Char) : Option (List Char) :=
  if lit.isPrefixOf cs then some (cs.drop lit.length) else none

mutual
/-- One JSON value at the front of the input (no leading white space). -/
def jsonValue : Nat → List Char → Option (List Char)
  | 0, _ => none
  | _ + 1, [] => none
  | fuel + 1, c :: rest =>
      if c == '"' then jsonStringBody rest
      else if c == '[' then
        match skipWs rest with
        | ']' :: rest2 => some rest2
        | inner =>
            match jsonValue fuel inner with
            | some after => jsonArrayRest fuel (skipWs after)
            | none => none
      else if c == '{' then
        match skipWs rest with
        | '}' :: rest2 => some rest2
        | inner =>
            match jsonMember fuel inner with
            | some after => jsonObjectRest fuel (skipWs after)
            | none => none
      else if c == 't' then jsonLiteral "rue".data rest
      else if c == 'f' then jsonLiteral "alse".data rest
      else if c == 'n' then jsonLiteral "ull".data rest
      else jsonNumber (c :: rest)
/-- After an array element: `]`, or `,` and the next element. -/
def jsonArrayRest : Nat → List Char → Option (List Char)
  | 0, _ => none
  | _ + 1, ']' :: rest => some rest
  | fuel + 1, ',' :: rest =>
      match jsonValue fuel (skipWs rest) with
      | some after => jsonArrayRest fuel (skipWs after)
      | none => none
  | _ + 1, _ => none
/-- One `"name" : value` member of an object (no leading white space). -/
def jsonMember : Nat → List Char → Option (List Char)
  | 0, _ => none
  | fuel + 1, '"' :: rest =>
      match jsonStringBody rest with
      | some after =>
          match skipWs after with
          | ':' :: rest2 =>
              match jsonValue fuel (skipWs rest2) with
              | some after2 => some after2
              | none => none
          | _ => none
      | none => none
  | _ + 1, _ => none
/-- After an object member: `}`, or `,` and the next member. -/
def jsonObjectRest : Nat → List Char → Option (List Char)
  | 0, _ => none
  | _ + 1, '}' :: rest => some rest
  | fuel + 1, ',' :: rest =>
      match jsonMember fuel (skipWs rest) with
      | some after => jsonObjectRest fuel (skipWs after)
      | none => none
  | _ + 1, _ => none
end

/-- Whether `JSON.parse(text)` returns (`true`) or throws (`false`). -/
def jsonParses (text : String) : Bool :=
  match jsonValue (text.length + 1) (skipWs text.data) with
  | some rest => (skipWs rest).isEmpty
  | none => false

/-! ## The admin API: `get.js` and `put.js` -/

/-- The allow-list `ALLOWED`, the same five keys in `get.js` and `put.js`. -/
def ALLOWED : List String :=
  ["data/site.json", "data/links.json", "data/about.json",
   "data/projects.json", "data/skills.json"]

/-- A `Response`: status, body text and the headers the handler passes itself. -/
structure Response where
  status : Nat
  body : String
  headers : List (String × String)
  deriving DecidableEq, Repr

/-- The key-value namespace `CONTENT_KV`: `none` is the `null` of a missing key. -/
abbrev Store := String → Option String

/-- The calls a handler makes on `CONTENT_KV`. -/
inductive KvOp where
  | get (key : String)
  | put (key value : String)
  deriving DecidableEq, Repr

/-- `CONTENT_KV.put(key, value)`: the value under `key` is replaced whole. -/
def Store.put (store : Store) (key value : String) : Store :=
  fun k => if k = key then some value else store k

/-- What a handler leaves behind: its response, the store after it, and the
calls it made on the store, in order. -/
structure ApiResult where
  response : Response
  store : Store
  trace : List KvOp

/-- The expression `url.searchParams.get("key") || ""`: `null` (parameter
missing) and the empty string both give `""`. -/
def keyOrEmpty : Option String → String
  | some k => if k = "" then "" else k
  | none => ""

/-- The handler `onRequestGet` of `get.js`. -/
def onRequestGet (keyParam : Option String) (store : Store) : ApiResult :=
  let key := keyOrEmpty keyParam
  if !ALLOWED.contains key then
    { response := ⟨403, "Not allowed", []⟩, store := store, trace := [] }
  else
    match store key with
    | none =>
        { response := ⟨404, "Not found", []⟩, store := store, trace := [.get key] }
    | some value =>
        if value = "" then
          { response := ⟨404, "Not found", []⟩, store := store, trace := [.get key] }
        else
          { response := ⟨200, value,
              [("content-type", "application/json; charset=utf-8"),
               ("cache-control", "no-store")]⟩,
            store := store, trace := [.get key] }

/-- Hexadecimal digit (lower case) of a value below sixteen. -/
def hexDigitLower (n : Nat) : Char :=
  if n < 10 then Char.ofNat (48 + n) else Char.ofNat (87 + n)

/-- The escape `JSON.stringify` writes for one code point of a string. -/
def quoteJsonChar (c : Char) : List Char :=
  if c == '"' then ['\\', '"']
  else if c == '\\' then ['\\', '\\']
  else if c.toNat == 0x08 then ['\\', 'b']
  else if c.toNat == 0x0C then ['\\', 'f']
  else if c == '\n' then ['\\', 'n']
  else if c == '\r' then ['\\', 'r']
  else if c == '\t' then ['\\', 't']
  else if c.toNat < 0x20 then
    ['\\', 'u', '0', '0', hexDigitLower (c.toNat / 16), hexDigitLower (c.toNat % 16)]
  else [c]

/-- `JSON.stringify` of a string value. -/
def quoteJsonString (s : String) : String :=
  ⟨'"' :: (s.data.flatMap quoteJsonChar ++ ['"'])⟩

/-- `JSON.stringify({ ok: true, key })`. -/
def putAcknowledgment (key : String) : String :=
  "\x7b\"ok\":true,\"key\":" ++ quoteJsonString key ++ "\x7d"

/-- The handler `onRequestPut` of `put.js`. -/
def onRequestPut (keyParam : Option String) (body : String) (store : Store) : ApiResult :=
  let key := keyOrEmpty keyParam
  if !ALLOWED.contains key then
    { response := ⟨403, "Not allowed", []⟩, store := store, trace := [] }
  else if !jsonParses body then
    { response := ⟨400, "Invalid JSON", []⟩, store := store, trace := [] }
  else
    { response := ⟨200, putAcknowledgment key,
        [("content-type", "application/json; charset=utf-8")]⟩,
      store := store.put key body, trace := [.put key body] }

/-! ## The admin gate: `_middleware.js` -/

/-- What `onRequest` reads of a request: the value of the header
`Cf-Access-Jwt-Assertion` (`none` when absent), and origin, path and query of
`new URL(context.request.url)`. -/
structure GateRequest where
  jwt : Option String
  origin : String
  pathname : String
  search : String
  deriving DecidableEq, Repr

/-- The set `allowedPublic` of `_middleware.js`. -/
def allowedPublic : List String :=
  ["/denied.html", "/style.css", "/admin.js", "/favicon.ico"]

/-- What the gate answers: a redirect of its own, or `context.next()` on the
request it was given. -/
inductive GateResult where
  | redirect (location : String) (status : Nat)
  | next (request : GateRequest)
  deriving DecidableEq, Repr

/-- The test `!jwt`: true for `null` and for the empty string. -/
def jwtMissing : Option String → Bool
  | none => true
  | some v => v == ""

/-- The middleware `onRequest`. -/
def onRequest (req : GateRequest) : GateResult :=
  if jwtMissing req.jwt && !allowedPublic.contains req.pathname
      && !startsWith req.pathname "/api/" then
    .redirect (req.origin ++ "/denied.html") 302
  else
    .next req

/-! ## JavaScript values and the platform under `script.js` -/

/-- A JavaScript number: a finite value, carried by the rational it denotes,
or one of the three non-finite values. -/
inductive JsNum where
  | finite (value : ℚ)
  | nan
  | posInf
  | negInf
  deriving DecidableEq

/-- A value read out of the fetched documents.  An array or plain object is
carried by the text its `toString()` gives, which is all that `Number(...)`,
`String(...)` and a `textContent` assignment read of it. -/
inductive JsVal where
  | undefined
  | null
  | bool (b : Bool)
  | num (n : JsNum)
  | str (s : String)
  | obj (text : String)
  deriving DecidableEq

/-- The result of `new URL(...)`, as far as the scripts read it. -/
structure Url where
  protocol : String
  origin : String
  href : String
  deriving DecidableEq, Repr

/-- The browser under `script.js`: the page origin and the built-ins that the
script calls on it. -/
structure Platform where
  /-- The value of `window.location.origin`. -/
  origin : String
  /-- The call `new URL(text, window.location.origin)`; `none` when it throws. -/
  parseUrl : String → Option Url
  /-- The numeric value of a string (`StringToNumber`). -/
  stringToNumber : String → JsNum
  /-- The text of a number (`Number::toString`). -/
  numberToString : JsNum → String
  /-- The method `a.localeCompare(b)`: negative, zero or positive. -/
  localeCompare : String → String → Int

/-- The operator `a ?? b`. -/
def nullish (a b : JsVal) : JsVal :=
  match a with
  | .undefined => b
  | .null => b
  | _ => a

/-- The conversion `Number(value)`. -/
def jsNumber (P : Platform) : JsVal → JsNum
  | .undefined => .nan
  | .null => .finite 0
  | .bool b => .finite (if b then 1 else 0)
  | .num n => n
  | .str s => P.stringToNumber s
  | .obj text => P.stringToNumber text

/-- The conversion `String(value)`. -/
def jsString (P : Platform) : JsVal → String
  | .undefined => "undefined"
  | .null => "null"
  | .bool b => if b then "true" else "false"
  | .num n => P.numberToString n
  | .str s => s
  | .obj text => text

/-- Truthiness of a value, as `if (value)` tests it. -/
def truthy : JsVal → Bool
  | .undefined => false
  | .null => false
  | .bool b => b
  | .num (.finite q) => q != 0
  | .num .nan => false
  | .num _ => true
  | .str s => s != ""
  | .obj _ => true

/-! ## `script.js`: helpers -/

/-- The function `toYearNumber`: `Number(value)` when finite, otherwise `-1`. -/
def toYearNumber (P : Platform) (value : JsVal) : ℚ :=
  match jsNumber P value with
  | .finite n => n
  | _ => -1

/-- The function `isSafeUrl`. -/
def isSafeUrl (P : Platform) (url : JsVal) : Bool :=
  match url with
  | .str s =>
      let trimmed := trim s
      if trimmed = "" then false
      else if startsWith trimmed "//" then false
      else if startsWith trimmed "/" || startsWith trimmed "./" ||
              startsWith trimmed "../" || startsWith trimmed "#" then true
      else
        match P.parseUrl trimmed with
        | some parsed => ["http:", "https:", "mailto:"].contains parsed.protocol
        | none => false
  | _ => false

/-- The object `getUrlMeta` returns. -/
structure UrlMeta where
  href : String
  isExternal : Bool
  deriving DecidableEq, Repr

/-- The function `getUrlMeta`. -/
def getUrlMeta (P : Platform) (rawUrl : JsVal) : UrlMeta :=
  let trimmed := trim (jsString P (nullish rawUrl (.str "")))
  match P.parseUrl trimmed with
  | some parsed =>
      let isHttp := parsed.protocol == "http:" || parsed.protocol == "https:"
      let isExternal := isHttp && parsed.origin != P.origin
      { href := parsed.href, isExternal := isExternal }
  | none => { href := trimmed, isExternal := false }

/-! ## `script.js`: links -/

/-- An `<a>` element, by the properties `createSafeLinkElement` assigns; `none`
is a property the function did not touch. -/
structure Anchor where
  textContent : String
  href : Option String := none
  title : Option String := none
  ariaDisabled : Option String := none
  tabIndex : Option Int := none
  pointerEvents : Option String := none
  opacity : Option String := none
  target : Option String := none
  rel : Option String := none
  deriving DecidableEq, Repr

/-- The function `createSafeLinkElement`. -/
def createSafeLinkElement (P : Platform) (url label : JsVal) : Anchor :=
  let linkElement : Anchor := { textContent := jsString P (nullish label (.str "")) }
  if !isSafeUrl P url then
    { linkElement with
      href := some "#", title := some "Invalid link", ariaDisabled := some "true",
      tabIndex := some (-1), pointerEvents := some "none", opacity := some "0.6" }
  else
    let meta := getUrlMeta P url
    let linkElement := { linkElement with href := some meta.href }
    if meta.isExternal then
      { linkElement with target := some "_blank", rel := some "noopener noreferrer" }
    else linkElement

/-- An entry of a list of links, by the two properties read of it; a property
that is not there reads as `undefined`. -/
structure LinkEntry where
  url : JsVal
  label : JsVal
  deriving DecidableEq

/-- The body of the two `forEach` loops over links (`data.links` in
`renderSite`, `project.links` in `createProjectCard`): the anchors appended
to the container, in order. -/
def renderLinks (P : Platform) (links : List LinkEntry) : List Anchor :=
  links.map fun link =>
    let url := nullish link.url (.str "")
    let label := nullish link.label (.str "")
    createSafeLinkElement P url label

/-! ## `script.js`: projects -/

/-- An entry of `data.projects`, by the properties read of it. -/
structure Project where
  title : JsVal
  year : JsVal
  summary : JsVal := .undefined
  tags : List JsVal := []
  featured : JsVal := .undefined
  links : List LinkEntry := []
  deriving DecidableEq

/-- The comparator passed to `sort` in `renderSite`.  Both years are finite, so
the difference the script computes is zero exactly when the years are equal
and otherwise has the sign of the exact difference; `sort` reads no more of
it than that. -/
def compareProjects (P : Platform) (a b : Project) : ℚ :=
  let yearDiff := toYearNumber P b.year - toYearNumber P a.year
  if yearDiff ≠ 0 then yearDiff
  else
    (P.localeCompare (jsString P (nullish a.title (.str "")))
      (jsString P (nullish b.title (.str ""))) : ℚ)

/-- The title text the comparator reads of a project. -/
def titleText (P : Platform) (a : Project) : String :=
  jsString P (nullish a.title (.str ""))

/-- Insert `x` in front of the first element it does not compare after. -/
def insertSorted {α : Type} (cmp : α → α → ℚ) (x : α) : List α → List α
  | [] => [x]
  | y :: ys => if cmp x y ≤ 0 then x :: y :: ys else y :: insertSorted cmp x ys

/-- The method `Array.prototype.sort` with a comparator.  The language fixes
the result for a consistent comparator: the elements in comparator order,
those that compare equal in their original order.  Insertion from the right
computes that arrangement. -/
def sort {α : Type} (cmp : α → α → ℚ) (xs : List α) : List α :=
  xs.foldr (insertSorted cmp) []

/-- The array `sortedProjects` of `renderSite`. -/
def sortedProjects (P : Platform) (projects : List Project) : List Project :=
  sort (compareProjects P) projects

/-- A project card, by what `createProjectCard` writes into it. -/
structure ProjectCard where
  title : String
  year : String
  summary : String
  tags : List String
  links : List Anchor
  deriving DecidableEq

/-- The function `createProjectCard`. -/
def createProjectCard (P : Platform) (project : Project) : ProjectCard :=
  { title := jsString P (nullish project.title (.str ""))
    year := jsString P (nullish project.year (.str ""))
    summary := jsString P (nullish project.summary (.str ""))
    tags := project.tags.map (fun tagText => jsString P (nullish tagText (.str "")))
      ++ (if truthy project.featured then ["Featured"] else [])
    links := renderLinks P project.links }

/-- The children `renderSite` gives the project grid. -/
def renderProjects (P : Platform) (projects : List Project) : List ProjectCard :=
  (sortedProjects P projects).map (createProjectCard P)

/-! ## `script.js`: the error page -/

/-- The call `text.replace(/c/g, replacement)` for a single character `c`. -/
def replaceAll (c : Char) (replacement : String) (text : String) : String :=
  ⟨text.data.flatMap fun x => if x == c then replacement.data else [x]⟩

/-- The constant `safeMessage` of `buildErrorHtml`. -/
def safeMessage (message : String) : String :=
  replaceAll (Char.ofNat 39) "&#039;"
    (replaceAll '"' "&quot;"
      (replaceAll '>' "&gt;"
        (replaceAll '<' "&lt;"
          (replaceAll '&' "&amp;" message))))

/-- What `safeMessage` writes for one character of the message. -/
def escapeChar (c : Char) : List Char :=
  if c = '&' then "&amp;".data
  else if c = '<' then "&lt;".data
  else if c = '>' then "&gt;".data
  else if c = '"' then "&quot;".data
  else if c = Char.ofNat 39 then "&#039;".data
  else [c]

/-- The texts that follow `&` in the five entities. -/
def entityTails : List String := ["amp;", "lt;", "gt;", "quot;", "#039;"]

/-- A scan of escaped text: none of `<`, `>`, `"` and the apostrophe occurs,
and each `&` is followed by the rest of one of the five entities. -/
def escapedOk : List Char → Bool
  | [] => true
  | c :: rest =>
      (c != '<' && c != '>' && c != '"' && c != Char.ofNat 39 &&
        (c != '&' || entityTails.any fun e => e.data.isPrefixOf rest)) && escapedOk rest

/-- The constant `errorUiPaddingPx`. -/
def errorUiPaddingPx : Nat := 20

/-- The constant `errorUiFontFamily`. -/
def errorUiFontFamily : String := "system-ui"

/-- The constant `errorUiTextColor`. -/
def errorUiTextColor : String := "#eaf2f7"

/-- The text of the template before `safeMessage`. -/
def errorHtmlHead : String :=
  "<div style=\"padding:" ++ toString errorUiPaddingPx ++ "px;color:" ++ errorUiTextColor
    ++ ";font-family:" ++ errorUiFontFamily ++ "\">\n    <h1>Couldn\x27t load JSON</h1>\n    <p>"

/-- The text of the template after `safeMessage`. -/
def errorHtmlTail : String := "</p>\n  </div>"

/-- The function `buildErrorHtml`, on a message that is a string. -/
def buildErrorHtml (message : String) : String :=
  errorHtmlHead ++ safeMessage message ++ errorHtmlTail

/-! ## `script.js`: loading the five documents -/

/-- The constant `dataFolderPrefix`. -/
def dataFolderPrefix : String := "./data/"
/-- The constant `siteJsonPath`. -/
def siteJsonPath : String := dataFolderPrefix ++ "site.json"
/-- The constant `linksJsonPath`. -/
def linksJsonPath : String := dataFolderPrefix ++ "links.json"
/-- The constant `aboutJsonPath`. -/
def aboutJsonPath : String := dataFolderPrefix ++ "about.json"
/-- The constant `projectsJsonPath`. -/
def projectsJsonPath : String := dataFolderPrefix ++ "projects.json"
/-- The constant `skillsJsonPath`. -/
def skillsJsonPath : String := dataFolderPrefix ++ "skills.json"

/-- How one `fetch` ends: rejected (no response at all), or a response with a
status whose `json()` gives a value or rejects with a message. -/
inductive FetchOutcome (α : Type) where
  | networkError (message : String)
  | response (status : Nat) (json : Except String α)

/-- One document of the batch: how its fetch ends, and the moment at which
the promise of its `loadJson` call settles. -/
structure Load (α : Type) where
  outcome : FetchOutcome α
  settledAt : Nat

/-- The function `loadJson`, on the outcome of its `fetch`. -/
def loadJson {α : Type} (filePath : String) (outcome : FetchOutcome α) : Except String α :=
  match outcome with
  | .networkError message => .error message
  | .response status json =>
      let isOk := decide (status ≥ 200) && decide (status < 300)
      if !isOk then .error ("Failed to load " ++ filePath ++ " (" ++ toString status ++ ")")
      else json

/-- A settled promise: when it settled and with what. -/
structure Settled (α : Type) where
  settledAt : Nat
  result : Except String α

/-- The reason of the promise that rejects first; of two that reject at the
same moment, the one earlier in the list. -/
def firstRejection {α : Type} : List (Settled α) → Option (Nat × String)
  | [] => none
  | p :: rest =>
      match p.result, firstRejection rest with
      | .error reason, some (t, later) =>
          if p.settledAt ≤ t then some (p.settledAt, reason) else some (t, later)
      | .error reason, none => some (p.settledAt, reason)
      | .ok _, found => found

/-- The values of the fulfilled promises, in list order. -/
def fulfilledValues {α : Type} : List (Settled α) → List α
  | [] => []
  | p :: rest =>
      match p.result with
      | .ok value => value :: fulfilledValues rest
      | .error _ => fulfilledValues rest

/-- The function `Promise.all`: rejected with the reason of the first promise
to reject, otherwise fulfilled with every value in list order. -/
def promiseAll {α : Type} (promises : List (Settled α)) : Except String (List α) :=
  match firstRejection promises with
  | some (_, reason) => .error reason
  | none => .ok (fulfilledValues promises)

/-- The five fetches of one page load. -/
structure Loads (α : Type) where
  site : Load α
  links : Load α
  about : Load α
  projects : Load α
  skills : Load α

/-- The object `loadAllContent` returns; a destructured position the array
does not have reads as `none`. -/
structure Bundle (α : Type) where
  site : Option α
  links : Option α
  about : Option α
  projects : Option α
  skills : Option α

/-- The status of a response outside `[200, 300)`, if that is how the fetch ended. -/
def FetchOutcome.badStatus {α : Type} : FetchOutcome α → Option Nat
  | .response status _ => if 200 ≤ status ∧ status < 300 then none else some status
  | .networkError _ => none

/-- The parsed document, when the response is 2xx and its body parses. -/
def FetchOutcome.document {α : Type} : FetchOutcome α → Option α
  | .response status (.ok value) => if 200 ≤ status ∧ status < 300 then some value else none
  | _ => none

/-- A fetch that produced a response whose body, if the status is 2xx, parses:
the only way such a load can fail is by its status. -/
def FetchOutcome.answered {α : Type} : FetchOutcome α → Bool
  | .response status (.error _) => !(decide (200 ≤ status) && decide (status < 300))
  | .response _ (.ok _) => true
  | .networkError _ => false

/-- The five documents of a page load with their paths, in the order of the
array passed to `Promise.all`. -/
def Loads.documents {α : Type} (loads : Loads α) : List (String × Load α) :=
  [(siteJsonPath, loads.site), (linksJsonPath, loads.links), (aboutJsonPath, loads.about),
   (projectsJsonPath, loads.projects), (skillsJsonPath, loads.skills)]

/-- The five promises handed to `Promise.all`. -/
def Loads.settled {α : Type} (loads : Loads α) : List (Settled α) :=
  loads.documents.map fun d => { settledAt := d.2.settledAt, result := loadJson d.1 d.2.outcome }

/-- The function `loadAllContent`. -/
def loadAllContent {α : Type} (loads : Loads α) : Except String (Bundle α) :=
  let settle (path : String) (l : Load α) : Settled α :=
    { settledAt := l.settledAt, result := loadJson path l.outcome }
  match promiseAll
      [settle siteJsonPath loads.site, settle linksJsonPath loads.links,
       settle aboutJsonPath loads.about, settle projectsJsonPath loads.projects,
       settle skillsJsonPath loads.skills] with
  | .error reason => .error reason
  | .ok values =>
      .ok { site := values[0]?, links := values[1]?, about := values[2]?,
            projects := values[3]?, skills := values[4]? }

/-- What the page shows once the chain at the end of `script.js` has run:
`renderSite` was called with the bundle, or the body was replaced by the
error page. -/
inductive Page (α : Type) where
  | rendered (data : Bundle α)
  | errorPage (html : String)

/-- The chain `loadAllContent().then(renderSite).catch(...)`. -/
def loadPage {α : Type} (loads : Loads α) : Page α :=
  match loadAllContent loads with
  | .ok data => .rendered data
  | .error message => .errorPage (buildErrorHtml message)

/-! ## The rules of the URL safety filter, as the specification words them -/

/-- The ordered rules of the URL safety filter read on a text as it stands:
not empty, not starting with `//`, and then either one of the four local
prefixes or a resolution against the page origin whose scheme is `http`,
`https` or `mailto`. -/
def safeUrlRules (P : Platform) (text : String) : Bool :=
  text != "" && !startsWith text "//" &&
    (startsWith text "/" || startsWith text "./" || startsWith text "../" ||
      startsWith text "#" ||
      match P.parseUrl text with
      | some parsed =>
          parsed.protocol == "http:" || parsed.protocol == "https:" ||
            parsed.protocol == "mailto:"
      | none => false)

/-- The rules applied to an arbitrary value: only a string can pass. -/
def safeUrlRulesOn (P : Platform) : JsVal → Bool
  | .str s => safeUrlRules P s
  | _ => false

/-! ## A browser at `https://example.org`

The values a browser gives for a page served from `https://example.org`, at
the inputs used in the worked examples below.  Outside those inputs the
tables are not meant to describe a browser. -/

/-- Results of `new URL(text, "https://example.org")` for the texts listed;
`none` for `/\`, where the call throws because the host is empty. -/
def sampleParseUrl (text : String) : Option Url :=
  if text = "" ∨ text = "   " then
    some ⟨"https:", "https://example.org", "https://example.org/"⟩
  else if text = "//evil.com" ∨ text = " //evil.com" then
    some ⟨"https:", "https://evil.com", "https://evil.com/"⟩
  else if text = "https://other.org" then
    some ⟨"https:", "https://other.org", "https://other.org/"⟩
  else if text = "/local/path" then
    some ⟨"https:", "https://example.org", "https://example.org/local/path"⟩
  else if text = "mailto:me@example.org" then
    some ⟨"mailto:", "null", "mailto:me@example.org"⟩
  else if text = "javascript:alert(1)" then
    some ⟨"javascript:", "null", "javascript:alert(1)"⟩
  else none

/-- Numeric value of the strings `""` and `"2020"`; any other text is taken as
not numeric, as `"x"` is. -/
def sampleStringToNumber (text : String) : JsNum :=
  if text = "" then .finite 0
  else if text = "2020" then .finite 2020
  else .nan

/-- Text of a number: exact for the non-finite values and for integers. -/
def sampleNumberToString : JsNum → String
  | .nan => "NaN"
  | .posInf => "Infinity"
  | .negInf => "-Infinity"
  | .finite q => if q.num < 0 then "-" ++ toString q.num.natAbs else toString q.num.natAbs

/-- Comparison by code points, which is how a browser orders titles written
in upper-case ASCII letters. -/
def sampleLocaleCompare (a b : String) : Int :=
  if a < b then -1 else if a = b then 0 else 1

/-- The sample browser. -/
def samplePlatform : Platform where
  origin := "https://example.org"
  parseUrl := sampleParseUrl
  stringToNumber := sampleStringToNumber
  numberToString := sampleNumberToString
  localeCompare := sampleLocaleCompare

/-! ## Lemmas: the JSON validator never runs out of fuel -/

theorem skipWs_length_le (cs : List Char) : (skipWs cs).length ≤ cs.length :=
  (List.dropWhile_suffix _).length_le

theorem skipDigits_length_le (cs : List Char) : (skipDigits cs).length ≤ cs.length :=
  (List.dropWhile_suffix _).length_le

theorem jsonStringBody_length : ∀ (n : Nat) (cs : List Char), cs.length ≤ n →
    ∀ r, jsonStringBody cs = some r → r.length ≤ cs.length := by
  intro n
  induction n with
  | zero =>
      intro cs hcs r h
      have : cs = [] := List.length_eq_zero.mp (Nat.le_zero.mp hcs)
      subst this
      simp [jsonStringBody] at h
  | succ n ih =>
      intro cs hcs r h
      unfold jsonStringBody at h
      split at h
      · cases h
      · cases h; simp
      · split_ifs at h
        rename_i rest _
        have := ih rest (by simp at hcs; omega) r h
        simp; omega
      · split_ifs at h
        rename_i rest _ _
        have := ih rest (by simp at hcs; omega) r h
        simp; omega
      · split_ifs at h
        rename_i rest _ _ _ _
        have := ih rest (by simp at hcs; omega) r h
        simp; omega

theorem jsonStringBody_le {cs r : List Char} (h : jsonStringBody cs = some r) :
    r.length ≤ cs.length :=
  jsonStringBody_length cs.length cs (Nat.le_refl _) r h

theorem jsonDigits1_le {cs r : List Char} (h : jsonDigits1 cs = some r) :
    r.length ≤ cs.length := by
  cases cs with
  | nil => simp [jsonDigits1] at h
  | cons c rest =>
      simp only [jsonDigits1] at h
      split_ifs at h
      cases h
      have := skipDigits_length_le rest
      simp; omega

theorem jsonFrac_le {cs r : List Char} (h : jsonFrac cs = some r) : r.length ≤ cs.length := by
  unfold jsonFrac at h
  split at h
  · have := jsonDigits1_le h
    simp; omega
  · cases h; exact Nat.le_refl _

theorem jsonExp_le {cs r : List Char} (h : jsonExp cs = some r) : r.length ≤ cs.length := by
  unfold jsonExp at h
  split at h
  · split_ifs at h
    · split at h
      · split_ifs at h
        · have := jsonDigits1_le h
          simp; omega
        · have := jsonDigits1_le h
          simp at this ⊢; omega
      · cases h
    · cases h; exact Nat.le_refl _
  · cases h; exact Nat.le_refl _

theorem jsonInt_le {cs r : List Char} (h : jsonInt cs = some r) : r.length ≤ cs.length := by
  unfold jsonInt at h
  split at h
  · cases h; simp
  · split_ifs at h
    cases h
    rename_i c rest _ _
    have := skipDigits_length_le rest
    simp; omega
  · cases h

theorem jsonNumber_le {cs r : List Char} (h : jsonNumber cs = some r) :
    r.length ≤ cs.length := by
  unfold jsonNumber at h
  simp only [Option.bind_eq_some] at h
  obtain ⟨r1, h1, r2, h2, h3⟩ := h
  have a1 := jsonInt_le h1
  have a2 := jsonFrac_le h2
  have a3 := jsonExp_le h3
  have : (match cs with | '-' :: rest => rest | _ => cs).length ≤ cs.length := by
    split
    · simp
    · exact Nat.le_refl _
  omega

theorem jsonLiteral_le {lit cs r : List Char} (h : jsonLiteral lit cs = some r) :
    r.length ≤ cs.length := by
  unfold jsonLiteral at h
  split_ifs at h
  cases h
  simp

theorem jsonArrayRest_succ (n : Nat) (cs : List Char) :
    jsonArrayRest (n + 1) cs =
      match cs with
      | ']' :: rest => some rest
      | ',' :: rest =>
          match jsonValue n (skipWs rest) with
          | some after => jsonArrayRest n (skipWs after)
          | none => none
      | _ => none := by
  conv_lhs => unfold jsonArrayRest
  split <;> simp_all

theorem jsonObjectRest_succ (n : Nat) (cs : List Char) :
    jsonObjectRest (n + 1) cs =
      match cs with
      | '}' :: rest => some rest
      | ',' :: rest =>
          match jsonMember n (skipWs rest) with
          | some after => jsonObjectRest n (skipWs after)
          | none => none
      | _ => none := by
  conv_lhs => unfold jsonObjectRest
  split <;> simp_all

theorem jsonMember_succ (n : Nat) (cs : List Char) :
    jsonMember (n + 1) cs =
      match cs with
      | '"' :: rest =>
          match jsonStringBody rest with
          | some after =>
              match skipWs after with
              | ':' :: rest2 => jsonValue n (skipWs rest2)
              | _ => none
          | none => none
      | _ => none := by
  conv_lhs => unfold jsonMember
  split
  · simp_all
  · rename_i fuel rest heq
    have : n = fuel := by omega
    subst this
    simp only
    split
    · split
      · split <;> simp_all
      · rfl
    · rfl
  · simp_all

theorem json_length (n : Nat) :
    (∀ cs r, jsonValue n cs = some r → r.length ≤ cs.length) ∧
    (∀ cs r, jsonArrayRest n cs = some r → r.length ≤ cs.length) ∧
    (∀ cs r, jsonMember n cs = some r → r.length ≤ cs.length) ∧
    (∀ cs r, jsonObjectRest n cs = some r → r.length ≤ cs.length) := by
  induction n with
  | zero =>
      refine ⟨?_, ?_, ?_, ?_⟩ <;> intro cs r h
      · simp [jsonValue] at h
      · simp [jsonArrayRest] at h
      · simp [jsonMember] at h
      · simp [jsonObjectRest] at h
  | succ n ih =>
      obtain ⟨ihV, ihA, ihM, ihO⟩ := ih
      refine ⟨?_, ?_, ?_, ?_⟩
      · intro cs r h
        cases cs with
        | nil => simp [jsonValue] at h
        | cons c rest =>
            simp only [jsonValue] at h
            have hws := skipWs_length_le rest
            split_ifs at h
            · have := jsonStringBody_le h
              simp; omega
            · split at h
              · cases h
                rename_i rest2 heq
                rw [heq] at hws
                simp at hws ⊢; omega
              · split at h
                · rename_i after hv
                  have h1 := ihV _ _ hv
                  have h2 := ihA _ _ h
                  have h3 := skipWs_length_le after
                  simp; omega
                · cases h
            · split at h
              · cases h
                rename_i rest2 heq
                rw [heq] at hws
                simp at hws ⊢; omega
              · split at h
                · rename_i after hv
                  have h1 := ihM _ _ hv
                  have h2 := ihO _ _ h
                  have h3 := skipWs_length_le after
                  simp; omega
                · cases h
            · have := jsonLiteral_le h
              simp; omega
            · have := jsonLiteral_le h
              simp; omega
            · have := jsonLiteral_le h
              simp; omega
            · exact jsonNumber_le h
      · intro cs r h
        rw [jsonArrayRest_succ] at h
        split at h
        · cases h; simp
        · rename_i rest
          split at h
          · rename_i after hv
            have h1 := ihV _ _ hv
            have h2 := ihA _ _ h
            have h3 := skipWs_length_le after
            have h4 := skipWs_length_le rest
            simp; omega
          · cases h
        · cases h
      · intro cs r h
        rw [jsonMember_succ] at h
        split at h
        · rename_i rest
          split at h
          · rename_i after hs
            split at h
            · rename_i rest2 heq
              have h1 := jsonStringBody_le hs
              have h2 := skipWs_length_le after
              rw [heq] at h2
              have h3 := ihV _ _ h
              have h4 := skipWs_length_le rest2
              simp at h2 ⊢; omega
            · cases h
          · cases h
        · cases h
      · intro cs r h
        rw [jsonObjectRest_succ] at h
        split at h
        · cases h; simp
        · rename_i rest
          split at h
          · rename_i after hv
            have h1 := ihM _ _ hv
            have h2 := ihO _ _ h
            have h3 := skipWs_length_le after
            have h4 := skipWs_length_le rest
            simp; omega
          · cases h
        · cases h

theorem json_fuel (n : Nat) :
    (∀ cs, cs.length < n → ∀ k, jsonValue (n + k) cs = jsonValue n cs) ∧
    (∀ cs, cs.length < n → ∀ k, jsonArrayRest (n + k) cs = jsonArrayRest n cs) ∧
    (∀ cs, cs.length < n → ∀ k, jsonMember (n + k) cs = jsonMember n cs) ∧
    (∀ cs, cs.length < n → ∀ k, jsonObjectRest (n + k) cs = jsonObjectRest n cs) := by
  induction n with
  | zero =>
      refine ⟨?_, ?_, ?_, ?_⟩ <;> intro cs h <;> exact absurd h (Nat.not_lt_zero _)
  | succ n ih =>
      obtain ⟨ihV, ihA, ihM, ihO⟩ := ih
      obtain ⟨lenV, _, lenM, _⟩ := json_length n
      have stepA : ∀ (w : List Char) (k : Nat), w.length < n →
          (match jsonValue (n + k) w with
            | some after => jsonArrayRest (n + k) (skipWs after)
            | none => none) =
          (match jsonValue n w with
            | some after => jsonArrayRest n (skipWs after)
            | none => none) := by
        intro w k hw
        rw [ihV w hw k]
        cases hv : jsonValue n w with
        | none => rfl
        | some after =>
            have h1 := lenV _ _ hv
            have h2 := skipWs_length_le after
            exact ihA (skipWs after) (by omega) k
      have stepO : ∀ (w : List Char) (k : Nat), w.length < n →
          (match jsonMember (n + k) w with
            | some after => jsonObjectRest (n + k) (skipWs after)
            | none => none) =
          (match jsonMember n w with
            | some after => jsonObjectRest n (skipWs after)
            | none => none) := by
        intro w k hw
        rw [ihM w hw k]
        cases hv : jsonMember n w with
        | none => rfl
        | some after =>
            have h1 := lenM _ _ hv
            have h2 := skipWs_length_le after
            exact ihO (skipWs after) (by omega) k
      refine ⟨?_, ?_, ?_, ?_⟩
      · intro cs hcs k
        rw [show n + 1 + k = (n + k) + 1 by omega]
        cases cs with
        | nil => simp [jsonValue]
        | cons c rest =>
            simp only [List.length_cons, Nat.add_lt_add_iff_right] at hcs
            have hws := skipWs_length_le rest
            simp only [jsonValue]
            split_ifs
            · rfl
            · split
              · rfl
              · exact stepA _ k (by omega)
            · split
              · rfl
              · exact stepO _ k (by omega)
            · rfl
            · rfl
            · rfl
            · rfl
      · intro cs hcs k
        rw [show n + 1 + k = (n + k) + 1 by omega, jsonArrayRest_succ, jsonArrayRest_succ]
        split
        · rfl
        · rename_i rest
          have hws := skipWs_length_le rest
          simp only [List.length_cons] at hcs
          exact stepA _ k (by omega)
        · rfl
      · intro cs hcs k
        rw [show n + 1 + k = (n + k) + 1 by omega, jsonMember_succ, jsonMember_succ]
        split
        · rename_i rest
          simp only [List.length_cons] at hcs
          cases hs : jsonStringBody rest with
          | none => rfl
          | some after =>
              have h1 := jsonStringBody_le hs
              have h2 := skipWs_length_le after
              simp only
              split
              · rename_i rest2 heq
                rw [heq] at h2
                have h3 := skipWs_length_le rest2
                simp only [List.length_cons] at h2
                exact ihV _ (by omega) k
              · rfl
        · rfl
      · intro cs hcs k
        rw [show n + 1 + k = (n + k) + 1 by omega, jsonObjectRest_succ, jsonObjectRest_succ]
        split
        · rfl
        · rename_i rest
          have hws := skipWs_length_le rest
          simp only [List.length_cons] at hcs
          exact stepO _ k (by omega)
        · rfl

/-- More fuel than one more than the length of the text changes nothing in
what `jsonParses` computes. -/
theorem jsonParses_fuel (text : String) (extra : Nat) :
    (match jsonValue (text.length + 1 + extra) (skipWs text.data) with
      | some rest => (skipWs rest).isEmpty
      | none => false) = jsonParses text := by
  unfold jsonParses
  have h := skipWs_length_le text.data
  rw [(json_fuel (text.length + 1)).1 (skipWs text.data)
    (by simp only [String.length] at *; omega) extra]

/-! ## Lemmas and theorems: the admin API -/

theorem keyOrEmpty_eq (kp : Option String) : keyOrEmpty kp = kp.getD "" := by
  cases kp with
  | none => rfl
  | some k => by_cases h : k = "" <;> simp [keyOrEmpty, h]

theorem onRequestGet_forbidden {kp : Option String} (store : Store)
    (h : keyOrEmpty kp ∉ ALLOWED) :
    onRequestGet kp store = ⟨⟨403, "Not allowed", []⟩, store, []⟩ := by
  simp [onRequestGet, h]

theorem onRequestPut_forbidden {kp : Option String} (body : String) (store : Store)
    (h : keyOrEmpty kp ∉ ALLOWED) :
    onRequestPut kp body store = ⟨⟨403, "Not allowed", []⟩, store, []⟩ := by
  simp [onRequestPut, h]

theorem onRequestPut_invalid {kp : Option String} {body : String} (store : Store)
    (h : keyOrEmpty kp ∈ ALLOWED) (hb : jsonParses body = false) :
    onRequestPut kp body store = ⟨⟨400, "Invalid JSON", []⟩, store, []⟩ := by
  simp [onRequestPut, h, hb]

theorem onRequestPut_stored {kp : Option String} {body : String} (store : Store)
    (h : keyOrEmpty kp ∈ ALLOWED) (hb : jsonParses body = true) :
    onRequestPut kp body store =
      ⟨⟨200, putAcknowledgment (keyOrEmpty kp),
          [("content-type", "application/json; charset=utf-8")]⟩,
        store.put (keyOrEmpty kp) body, [.put (keyOrEmpty kp) body]⟩ := by
  simp [onRequestPut, h, hb]

theorem onRequestGet_found {kp : Option String} {store : Store} {value : String}
    (h : keyOrEmpty kp ∈ ALLOWED) (hv : store (keyOrEmpty kp) = some value) (hne : value ≠ "") :
    onRequestGet kp store =
      ⟨⟨200, value, [("content-type", "application/json; charset=utf-8"),
          ("cache-control", "no-store")]⟩, store, [.get (keyOrEmpty kp)]⟩ := by
  simp [onRequestGet, h, hv, hne]

theorem jsonParses_ne_empty {b : String} (h : jsonParses b = true) : b ≠ "" := by
  rintro rfl
  exact absurd h (by decide)

theorem putAcknowledgment_allowed {k : String} (h : k ∈ ALLOWED) :
    putAcknowledgment k = "\x7b\"ok\":true,\"key\":\"" ++ k ++ "\"\x7d" := by
  simp [ALLOWED] at h
  rcases h with rfl | rfl | rfl | rfl | rfl <;> decide

/-- Claim C1.  When the `key` parameter, or the empty string in its absence,
is not one of the five allow-listed keys, `onRequestGet` and `onRequestPut`
both answer 403 with body `Not allowed`, for every request body and every
store; the store they leave is the one they were given and they make no call
on it. -/
theorem get_put_forbidden (keyParam : Option String) (body : String) (store : Store)
    (h : keyParam.getD "" ∉ ALLOWED) :
    onRequestGet keyParam store = ⟨⟨403, "Not allowed", []⟩, store, []⟩ ∧
    onRequestPut keyParam body store = ⟨⟨403, "Not allowed", []⟩, store, []⟩ := by
  rw [← keyOrEmpty_eq] at h
  exact ⟨onRequestGet_forbidden store h, onRequestPut_forbidden body store h⟩

/-- Claim C1 at a key outside the allow-list, with a store that holds a value
under an allow-listed key. -/
theorem get_put_forbidden_witness :
    (some "data/secret.json").getD "" ∉ ALLOWED ∧
    onRequestGet (some "data/secret.json") (Store.put (fun _ => none) "data/site.json" "[1]")
      = ⟨⟨403, "Not allowed", []⟩, Store.put (fun _ => none) "data/site.json" "[1]", []⟩ ∧
    onRequestPut (some "data/secret.json") "[2]"
        (Store.put (fun _ => none) "data/site.json" "[1]")
      = ⟨⟨403, "Not allowed", []⟩, Store.put (fun _ => none) "data/site.json" "[1]", []⟩ :=
  ⟨by decide,
    get_put_forbidden (some "data/secret.json") "[2]"
      (Store.put (fun _ => none) "data/site.json" "[1]") (by decide)⟩

/-- Claim C2.  For an allow-listed key `k` and a body `b` that parses as JSON,
`onRequestPut` answers 200 with the acknowledgment `{"ok":true,"key":k}`,
stores exactly the text `b` under `k` (one `put`, every other key untouched),
and `onRequestGet` for `k` on the resulting store answers 200 with body `b`. -/
theorem put_then_get (k : String) (hk : k ∈ ALLOWED) (b : String) (hb : jsonParses b = true)
    (store : Store) :
    (onRequestPut (some k) b store).response.status = 200 ∧
    (onRequestPut (some k) b store).response.body = "\x7b\"ok\":true,\"key\":\"" ++ k ++ "\"\x7d" ∧
    (onRequestPut (some k) b store).store k = some b ∧
    (∀ k2, k2 ≠ k → (onRequestPut (some k) b store).store k2 = store k2) ∧
    (onRequestPut (some k) b store).trace = [.put k b] ∧
    (onRequestGet (some k) (onRequestPut (some k) b store).store).response.status = 200 ∧
    (onRequestGet (some k) (onRequestPut (some k) b store).store).response.body = b := by
  have hne : b ≠ "" := jsonParses_ne_empty hb
  have hk1 : keyOrEmpty (some k) = k := by
    rw [keyOrEmpty_eq]; rfl
  have hk2 : keyOrEmpty (some k) ∈ ALLOWED := by rw [hk1]; exact hk
  have hput := onRequestPut_stored store hk2 hb
  rw [hk1] at hput
  have hstored : store.put k b (keyOrEmpty (some k)) = some b := by
    rw [hk1]; simp [Store.put]
  have hget := onRequestGet_found hk2 hstored hne
  rw [hput, hget]
  refine ⟨rfl, putAcknowledgment_allowed hk, by simp [Store.put], ?_, rfl, rfl, rfl⟩
  intro k2 h2
  simp [Store.put, h2]

/-- Claim C2 at the key `data/links.json` and a body with insignificant white
space, which comes back as it was sent. -/
theorem put_then_get_witness :
    "data/links.json" ∈ ALLOWED ∧ jsonParses "[ 1,  2 ]" = true ∧
    (onRequestPut (some "data/links.json") "[ 1,  2 ]" (fun _ => none)).response.body
      = "\x7b\"ok\":true,\"key\":\"data/links.json\"\x7d" ∧
    (onRequestGet (some "data/links.json")
      (onRequestPut (some "data/links.json") "[ 1,  2 ]" (fun _ => none)).store).response.body
      = "[ 1,  2 ]" :=
  have h := put_then_get "data/links.json" (by decide) "[ 1,  2 ]" (by decide) (fun _ => none)
  ⟨by decide, by decide, h.2.1, h.2.2.2.2.2.2⟩

/-- Claim C3.  For an allow-listed key and a body that does not parse as JSON,
`onRequestPut` answers 400 with body `Invalid JSON`; the store it leaves is
the store it was given, under every key, and it makes no call on it. -/
theorem put_invalid_json (k : String) (hk : k ∈ ALLOWED) (b : String)
    (hb : jsonParses b = false) (store : Store) :
    (onRequestPut (some k) b store).response = ⟨400, "Invalid JSON", []⟩ ∧
    (onRequestPut (some k) b store).store = store ∧
    (onRequestPut (some k) b store).trace = [] := by
  have hk1 : keyOrEmpty (some k) = k := by
    rw [keyOrEmpty_eq]; rfl
  have hk2 : keyOrEmpty (some k) ∈ ALLOWED := by rw [hk1]; exact hk
  rw [onRequestPut_invalid store hk2 hb]
  exact ⟨rfl, rfl, rfl⟩

/-- Claim C3 at the key `data/about.json` and a body with an unclosed array. -/
theorem put_invalid_json_witness :
    "data/about.json" ∈ ALLOWED ∧ jsonParses "[1, 2" = false ∧
    (onRequestPut (some "data/about.json") "[1, 2" (fun _ => none)).response
      = ⟨400, "Invalid JSON", []⟩ :=
  ⟨by decide, by decide,
    (put_invalid_json "data/about.json" (by decide) "[1, 2" (by decide) (fun _ => none)).1⟩

/-! ## Lemmas and theorems: the admin gate -/

theorem onRequest_cases (req : GateRequest) :
    onRequest req =
      if (req.jwt = none ∨ req.jwt = some "") ∧ req.pathname ∉ allowedPublic ∧
          startsWith req.pathname "/api/" = false
      then .redirect (req.origin ++ "/denied.html") 302 else .next req := by
  have hj : jwtMissing req.jwt = true ↔ (req.jwt = none ∨ req.jwt = some "") := by
    cases h : req.jwt with
    | none => simp [jwtMissing]
    | some v => simp [jwtMissing]
  unfold onRequest
  by_cases hc : (req.jwt = none ∨ req.jwt = some "") ∧ req.pathname ∉ allowedPublic ∧
        startsWith req.pathname "/api/" = false
  · have h1 := hj.mpr hc.1
    rw [if_pos hc]
    simp [h1, hc.2.1, hc.2.2]
  · rw [if_neg hc, if_neg]
    intro hcond
    apply hc
    simp only [Bool.and_eq_true, Bool.not_eq_true'] at hcond
    exact ⟨hj.mp hcond.1.1, by simpa using hcond.1.2, hcond.2⟩

/-- Claim C9.  The gate answers with a 302 redirect to `/denied.html` exactly
when the assertion header is absent or empty, the path is none of the four
public paths and the path does not start with `/api/`; otherwise it passes the
request on unchanged.  `/secret` without the header is redirected, `/secret`
with a header passes, `/api/get` without the header passes. -/
theorem gate_redirect_iff (req : GateRequest) :
    (onRequest req = .redirect (req.origin ++ "/denied.html") 302 ↔
      ((req.jwt = none ∨ req.jwt = some "") ∧ req.pathname ∉ allowedPublic ∧
        startsWith req.pathname "/api/" = false)) ∧
    (¬ ((req.jwt = none ∨ req.jwt = some "") ∧ req.pathname ∉ allowedPublic ∧
        startsWith req.pathname "/api/" = false) → onRequest req = .next req) ∧
    onRequest ⟨none, req.origin, "/secret", ""⟩ = .redirect (req.origin ++ "/denied.html") 302 ∧
    (∀ token, token ≠ "" → onRequest ⟨some token, req.origin, "/secret", ""⟩
        = .next ⟨some token, req.origin, "/secret", ""⟩) ∧
    (∀ query, onRequest ⟨none, req.origin, "/api/get", query⟩
        = .next ⟨none, req.origin, "/api/get", query⟩) := by
  refine ⟨?_, ?_, ?_, ?_, ?_⟩
  · rw [onRequest_cases]
    split_ifs with hc
    · simp [hc]
    · simp [hc]
  · intro hc
    rw [onRequest_cases, if_neg hc]
  · rw [onRequest_cases, if_pos]
    exact ⟨Or.inl rfl, (by decide : "/secret" ∉ allowedPublic),
      (by decide : startsWith "/secret" "/api/" = false)⟩
  · intro token ht
    rw [onRequest_cases, if_neg]
    simp [ht]
  · intro query
    rw [onRequest_cases, if_neg]
    intro h
    exact absurd h.2.2 (by decide : ¬ startsWith "/api/get" "/api/" = false)

/-! ## Lemmas and theorems: the error page -/

theorem replaceAll_data (c : Char) (r t : String) :
    (replaceAll c r t).data = t.data.flatMap fun x => if x == c then r.data else [x] := rfl

theorem safeMessage_data (m : String) : (safeMessage m).data = m.data.flatMap escapeChar := by
  simp only [safeMessage, replaceAll_data, List.flatMap_assoc]
  apply List.flatMap_congr
  intro x _
  unfold escapeChar
  by_cases h1 : x = '&'
  · subst h1; decide
  by_cases h2 : x = '<'
  · subst h2; decide
  by_cases h3 : x = '>'
  · subst h3; decide
  by_cases h4 : x = '"'
  · subst h4; decide
  by_cases h5 : x = Char.ofNat 39
  · subst h5; decide
  simp [h1, h2, h3, h4, h5]

theorem escapedOk_escapeChar_append (c : Char) (l : List Char) (h : escapedOk l = true) :
    escapedOk (escapeChar c ++ l) = true := by
  unfold escapeChar
  by_cases h1 : c = '&'
  · simp [h1, escapedOk, entityTails, h]
  by_cases h2 : c = '<'
  · simp [h2, escapedOk, entityTails, h]
  by_cases h3 : c = '>'
  · simp [h3, escapedOk, entityTails, h]
  by_cases h4 : c = '"'
  · simp [h4, escapedOk, entityTails, h]
  by_cases h5 : c = Char.ofNat 39
  · simp [h5, escapedOk, entityTails, h]
  simp [h1, h2, h3, h4, h5, escapedOk, h]

theorem escapedOk_flatMap (cs : List Char) : escapedOk (cs.flatMap escapeChar) = true := by
  induction cs with
  | nil => rfl
  | cons c cs ih =>
      rw [List.flatMap_cons]
      exact escapedOk_escapeChar_append c _ ih

theorem escapedOk_mem {l : List Char} (h : escapedOk l = true) :
    ∀ c ∈ l, c ≠ '<' ∧ c ≠ '>' ∧ c ≠ '"' ∧ c ≠ Char.ofNat 39 := by
  induction l with
  | nil => intro c hc; cases hc
  | cons a l ih =>
      simp only [escapedOk, Bool.and_eq_true, bne_iff_ne, ne_eq] at h
      intro c hc
      rcases List.mem_cons.mp hc with rfl | hc
      · exact ⟨h.1.1.1.1.1, h.1.1.1.1.2, h.1.1.1.2, h.1.1.2⟩
      · exact ih h.2 c hc

theorem escapedOk_amp {l : List Char} (h : escapedOk l = true) :
    ∀ pre post, l = pre ++ '&' :: post → ∃ e ∈ entityTails, e.data <+: post := by
  intro pre
  induction pre generalizing l with
  | nil =>
      intro post hl
      subst hl
      simp only [List.nil_append, escapedOk, Bool.and_eq_true, bne_iff_ne, ne_eq,
        Bool.or_eq_true, not_true_eq_false, false_or, List.any_eq_true] at h
      obtain ⟨e, he, hp⟩ := h.1.2
      exact ⟨e, he, List.isPrefixOf_iff_prefix.mp hp⟩
  | cons p pre ih =>
      intro post hl
      subst hl
      simp only [List.cons_append, escapedOk, Bool.and_eq_true] at h
      exact ih h.2 post rfl

/-- Claim C6.  The text `buildErrorHtml` places between `<p>` and `</p>` is
`safeMessage m`; it holds none of `<`, `>`, `"` and the apostrophe, and every
`&` in it opens one of `&amp;`, `&lt;`, `&gt;`, `&quot;`, `&#039;`.  The
message of the example comes out fully escaped. -/
theorem safeMessage_escaped (m : String) :
    buildErrorHtml m = errorHtmlHead ++ safeMessage m ++ errorHtmlTail ∧
    (∀ c ∈ (safeMessage m).data, c ≠ '<' ∧ c ≠ '>' ∧ c ≠ '"' ∧ c ≠ Char.ofNat 39) ∧
    (∀ pre post, (safeMessage m).data = pre ++ '&' :: post →
      ∃ e ∈ ["amp;", "lt;", "gt;", "quot;", "#039;"], e.data <+: post) ∧
    safeMessage "<script>&\"\x27</script>" = "&lt;script&gt;&amp;&quot;&#039;&lt;/script&gt;" := by
  have hok : escapedOk (safeMessage m).data = true := by
    rw [safeMessage_data]; exact escapedOk_flatMap _
  exact ⟨rfl, escapedOk_mem hok, escapedOk_amp hok, by decide⟩

/-! ## Lemmas and theorems: the URL safety filter -/

theorem isSafeUrl_str (P : Platform) (s : String) :
    isSafeUrl P (.str s) = safeUrlRules P (trim s) := by
  unfold isSafeUrl safeUrlRules
  by_cases h1 : trim s = ""
  · simp [h1]
  by_cases h2 : startsWith (trim s) "//" = true
  · simp [h1, h2]
  by_cases h3 : (startsWith (trim s) "/" || startsWith (trim s) "./" ||
              startsWith (trim s) "../" || startsWith (trim s) "#") = true
  · simp only [h1, h2, h3, if_true, if_false]
    simp only [Bool.or_eq_true] at h3
    rcases h3 with ((h | h) | h) | h <;> simp [h, h1]
  · simp only [h1, h2, h3, if_false]
    simp only [Bool.or_eq_true, not_or, Bool.not_eq_true] at h3
    obtain ⟨⟨⟨a, b⟩, c⟩, d⟩ := h3
    cases hp : P.parseUrl (trim s) with
    | none => simp [a, b, c, d]
    | some parsed =>
        have hne : (trim s != "") = true := by simpa using h1
        simp [a, b, c, d, hne, Bool.or_assoc]
        rfl

/-- Claim C4, amended.  `isSafeUrl` accepts a value exactly when it is a string
whose text, with leading and trailing white space removed, passes the ordered
rules: not empty, not starting with `//`, and either starting with `/`, `./`,
`../` or `#`, or resolving against the page origin with scheme `http`, `https`
or `mailto`.  `//evil.com` and `javascript:alert(1)` are rejected,
`/local/path` and `https://other.org` accepted. -/
theorem isSafeUrl_rules (P : Platform) :
    (∀ v, isSafeUrl P v = true ↔ ∃ s, v = .str s ∧ safeUrlRules P (trim s) = true) ∧
    isSafeUrl P (.str "//evil.com") = false ∧
    isSafeUrl P (.str "/local/path") = true ∧
    (∀ u, P.parseUrl "javascript:alert(1)" = some u → u.protocol = "javascript:" →
      isSafeUrl P (.str "javascript:alert(1)") = false) ∧
    (∀ u, P.parseUrl "https://other.org" = some u → u.protocol = "https:" →
      isSafeUrl P (.str "https://other.org") = true) := by
  refine ⟨?_, ?_, ?_, ?_, ?_⟩
  · intro v
    cases v with
    | str s => simp [isSafeUrl_str]
    | _ => simp [isSafeUrl]
  · rw [isSafeUrl_str]
    have : trim "//evil.com" = "//evil.com" := by decide
    rw [this]
    simp [safeUrlRules, show startsWith "//evil.com" "//" = true by decide]
  · rw [isSafeUrl_str]
    have : trim "/local/path" = "/local/path" := by decide
    rw [this]
    simp [safeUrlRules, show startsWith "/local/path" "//" = false by decide,
      show startsWith "/local/path" "/" = true by decide]
  · intro u hu hp
    rw [isSafeUrl_str]
    have : trim "javascript:alert(1)" = "javascript:alert(1)" := by decide
    rw [this]
    simp [safeUrlRules, hu, hp,
      show startsWith "javascript:alert(1)" "//" = false by decide,
      show startsWith "javascript:alert(1)" "/" = false by decide,
      show startsWith "javascript:alert(1)" "./" = false by decide,
      show startsWith "javascript:alert(1)" "../" = false by decide,
      show startsWith "javascript:alert(1)" "#" = false by decide]
  · intro u hu hp
    rw [isSafeUrl_str]
    have : trim "https://other.org" = "https://other.org" := by decide
    rw [this]
    simp [safeUrlRules, hu, hp,
      show startsWith "https://other.org" "//" = false by decide]

/-- Claim C4 as stated fails.  In a browser at `https://example.org` the texts
` //evil.com` and three spaces are not empty, do not start with `//` and
resolve to an `https` URL, so the rules read on the value as it stands accept
them; `isSafeUrl` trims first and rejects both. -/
theorem isSafeUrl_not_untrimmed_rules :
    isSafeUrl samplePlatform (.str " //evil.com") = false ∧
    safeUrlRulesOn samplePlatform (.str " //evil.com") = true ∧
    isSafeUrl samplePlatform (.str "   ") = false ∧
    safeUrlRulesOn samplePlatform (.str "   ") = true := by
  decide

/-! ## Lemmas and theorems: links -/

theorem nullish_nullish_str (a : JsVal) (t : String) :
    nullish (nullish a (.str t)) (.str t) = nullish a (.str t) := by
  cases a <;> rfl

theorem getUrlMeta_str (P : Platform) (s : String) :
    getUrlMeta P (.str s) =
      match P.parseUrl (trim s) with
      | some parsed =>
          { href := parsed.href,
            isExternal := (parsed.protocol == "http:" || parsed.protocol == "https:")
              && parsed.origin != P.origin }
      | none => { href := trim s, isExternal := false } := rfl

theorem isSafeUrl_true_str {P : Platform} {v : JsVal} (h : isSafeUrl P v = true) :
    ∃ s, v = .str s := by
  cases v with
  | str s => exact ⟨s, rfl⟩
  | _ => simp [isSafeUrl] at h

theorem createSafeLinkElement_spec (P : Platform) (url label : JsVal) :
    (createSafeLinkElement P url label).textContent = jsString P (nullish label (.str "")) ∧
    (isSafeUrl P url = false →
      createSafeLinkElement P url label =
        { textContent := jsString P (nullish label (.str "")),
          href := some "#", title := some "Invalid link", ariaDisabled := some "true",
          tabIndex := some (-1), pointerEvents := some "none", opacity := some "0.6",
          target := none, rel := none }) ∧
    (isSafeUrl P url = true → ∃ s, url = .str s ∧
      (∀ parsed, P.parseUrl (trim s) = some parsed →
        (createSafeLinkElement P url label).href = some parsed.href ∧
        (((parsed.protocol = "http:" ∨ parsed.protocol = "https:") ∧ parsed.origin ≠ P.origin) →
          (createSafeLinkElement P url label).target = some "_blank" ∧
          (createSafeLinkElement P url label).rel = some "noopener noreferrer") ∧
        (¬ ((parsed.protocol = "http:" ∨ parsed.protocol = "https:") ∧ parsed.origin ≠ P.origin) →
          (createSafeLinkElement P url label).target = none ∧
          (createSafeLinkElement P url label).rel = none)) ∧
      (P.parseUrl (trim s) = none →
        (createSafeLinkElement P url label).href = some (trim s) ∧
        (createSafeLinkElement P url label).target = none ∧
        (createSafeLinkElement P url label).rel = none)) := by
  refine ⟨?_, ?_, ?_⟩
  · unfold createSafeLinkElement
    by_cases h : isSafeUrl P url = true
    · simp only [h, Bool.not_true, Bool.false_eq_true, if_false]
      split_ifs <;> rfl
    · simp [h]
  · intro h
    simp [createSafeLinkElement, h]
  · intro h
    obtain ⟨s, rfl⟩ := isSafeUrl_true_str h
    refine ⟨s, rfl, ?_, ?_⟩
    · intro parsed hp
      have hm : getUrlMeta P (.str s) = UrlMeta.mk parsed.href
            ((parsed.protocol == "http:" || parsed.protocol == "https:")
              && parsed.origin != P.origin) := by
        rw [getUrlMeta_str, hp]
      refine ⟨?_, ?_, ?_⟩
      · unfold createSafeLinkElement
        simp only [h, Bool.not_true, Bool.false_eq_true, if_false, hm]
        split_ifs <;> rfl
      · intro hext
        have he : ((parsed.protocol == "http:" || parsed.protocol == "https:")
              && parsed.origin != P.origin) = true := by
          simpa using hext
        unfold createSafeLinkElement
        simp [h, hm, he]
      · intro hext
        have he : ((parsed.protocol == "http:" || parsed.protocol == "https:")
              && parsed.origin != P.origin) = false := by
          rw [← Bool.not_eq_true]
          intro hc
          apply hext
          simpa using hc
        unfold createSafeLinkElement
        simp [h, hm, he]
    · intro hp
      have hm : getUrlMeta P (.str s) = UrlMeta.mk (trim s) false := by
        rw [getUrlMeta_str, hp]
      unfold createSafeLinkElement
      simp [h, hm]

/-- Claim C5, amended.  The renderer gives one anchor for each entry, in the
order of the entries.  An entry whose url `isSafeUrl` rejects gets the disabled
anchor (`href` `#`, `aria-disabled` `true`, `tabIndex` `-1`, no `target`, no
`rel`).  An entry whose url is accepted gets, if the trimmed url resolves, the
resolved `href`, with `target="_blank"` and `rel="noopener noreferrer"` exactly
when the resolved scheme is `http` or `https` and the resolved origin is not
the page origin; if the trimmed url does not resolve, it gets the trimmed text
as `href` and neither `target` nor `rel`. -/
theorem renderLinks_anchors (P : Platform) (links : List LinkEntry) :
    (renderLinks P links).length = links.length ∧
    List.Forall₂ (fun entry anchor =>
      anchor.textContent = jsString P (nullish entry.label (.str "")) ∧
      (isSafeUrl P (nullish entry.url (.str "")) = false →
        anchor.href = some "#" ∧ anchor.ariaDisabled = some "true" ∧
        anchor.tabIndex = some (-1) ∧ anchor.target = none ∧ anchor.rel = none) ∧
      (isSafeUrl P (nullish entry.url (.str "")) = true →
        ∃ s, nullish entry.url (.str "") = .str s ∧
        (∀ parsed, P.parseUrl (trim s) = some parsed →
          anchor.href = some parsed.href ∧
          (((parsed.protocol = "http:" ∨ parsed.protocol = "https:") ∧
              parsed.origin ≠ P.origin) →
            anchor.target = some "_blank" ∧ anchor.rel = some "noopener noreferrer") ∧
          (¬ ((parsed.protocol = "http:" ∨ parsed.protocol = "https:") ∧
              parsed.origin ≠ P.origin) →
            anchor.target = none ∧ anchor.rel = none)) ∧
        (P.parseUrl (trim s) = none →
          anchor.href = some (trim s) ∧ anchor.target = none ∧ anchor.rel = none)))
      links (renderLinks P links) := by
  refine ⟨by simp [renderLinks], ?_⟩
  unfold renderLinks
  rw [List.forall₂_map_right_iff, List.forall₂_same]
  intro entry _
  have h := createSafeLinkElement_spec P (nullish entry.url (.str ""))
    (nullish entry.label (.str ""))
  rw [nullish_nullish_str] at h
  refine ⟨h.1, ?_, h.2.2⟩
  intro hrej
  show (createSafeLinkElement P _ _).href = _ ∧ _
  rw [h.2.1 hrej]
  exact ⟨rfl, rfl, rfl, rfl, rfl⟩

/-- Claim C5 as stated fails.  In a browser at `https://example.org` the url
`/\` is accepted by `isSafeUrl` as a local reference but does not resolve (its
host is empty), so the anchor has no resolved `href`: it carries the text of
the url. -/
theorem renderLinks_unresolved_href :
    isSafeUrl samplePlatform (.str "/\\") = true ∧
    samplePlatform.parseUrl (trim "/\\") = none ∧
    renderLinks samplePlatform [⟨.str "/\\", .str "home"⟩] =
      [{ textContent := "home", href := some "/\\" }] := by
  decide

/-! ## Lemmas and theorems: the order of the projects -/

theorem compareProjects_le_iff (P : Platform) (a b : Project) :
    compareProjects P a b ≤ 0 ↔
      (toYearNumber P b.year < toYearNumber P a.year ∨
        (toYearNumber P a.year = toYearNumber P b.year ∧
          P.localeCompare (titleText P a) (titleText P b) ≤ 0)) := by
  unfold compareProjects titleText
  by_cases h : toYearNumber P b.year - toYearNumber P a.year = 0
  · have heq : toYearNumber P a.year = toYearNumber P b.year := by linarith
    simp only [h, ne_eq, not_true_eq_false, if_false]
    rw [heq]
    simp
  · simp only [ne_eq, h, not_false_eq_true, if_true]
    constructor
    · intro hle
      left
      rcases lt_or_eq_of_le hle with hlt | he
      · linarith
      · exact absurd he h
    · rintro (hlt | ⟨he, _⟩)
      · linarith
      · exact absurd (by rw [he]; ring) h

theorem sort_eq_insertionSort {α : Type} (cmp : α → α → ℚ) (xs : List α) :
    sort cmp xs = List.insertionSort (fun a b => cmp a b ≤ 0) xs := by
  induction xs with
  | nil => rfl
  | cons x xs ih =>
      have hins : ∀ l : List α,
          insertSorted cmp x l = List.orderedInsert (fun a b => cmp a b ≤ 0) x l := by
        intro l
        induction l with
        | nil => rfl
        | cons y ys ihy =>
            simp only [insertSorted, List.orderedInsert, ihy]
      show insertSorted cmp x (sort cmp xs) = _
      rw [hins, ih]
      rfl

theorem sort_perm {α : Type} (cmp : α → α → ℚ) (xs : List α) : (sort cmp xs).Perm xs := by
  rw [sort_eq_insertionSort]
  exact List.perm_insertionSort _ xs

theorem sortedProjects_pairwise (P : Platform)
    (htotal : ∀ s t, P.localeCompare s t ≤ 0 ∨ P.localeCompare t s ≤ 0)
    (htrans : ∀ s t u, P.localeCompare s t ≤ 0 → P.localeCompare t u ≤ 0 →
      P.localeCompare s u ≤ 0)
    (projects : List Project) :
    (sortedProjects P projects).Pairwise (fun a b => compareProjects P a b ≤ 0) := by
  unfold sortedProjects
  rw [sort_eq_insertionSort]
  haveI : IsTotal Project (fun a b => compareProjects P a b ≤ 0) := ⟨by
    intro a b
    simp only [compareProjects_le_iff]
    rcases lt_trichotomy (toYearNumber P a.year) (toYearNumber P b.year) with h | h | h
    · exact Or.inr (Or.inl h)
    · rcases htotal (titleText P a) (titleText P b) with h2 | h2
      · exact Or.inl (Or.inr ⟨h, h2⟩)
      · exact Or.inr (Or.inr ⟨h.symm, h2⟩)
    · exact Or.inl (Or.inl h)⟩
  haveI : IsTrans Project (fun a b => compareProjects P a b ≤ 0) := ⟨by
    intro a b c
    simp only [compareProjects_le_iff]
    rintro (h1 | ⟨h1, t1⟩) (h2 | ⟨h2, t2⟩)
    · exact Or.inl (lt_trans h2 h1)
    · exact Or.inl (by rw [← h2]; exact h1)
    · exact Or.inl (by rw [h1]; exact h2)
    · exact Or.inr ⟨h1.trans h2, htrans _ _ _ t1 t2⟩⟩
  exact List.sorted_insertionSort _ projects

theorem insertSorted_years (P : Platform) (x : Project) (l : List Project)
    (hl : l.Pairwise (fun a b => toYearNumber P b.year ≤ toYearNumber P a.year)) :
    (insertSorted (compareProjects P) x l).Pairwise
      (fun a b => toYearNumber P b.year ≤ toYearNumber P a.year) ∧
    ∀ z ∈ insertSorted (compareProjects P) x l, z = x ∨ z ∈ l := by
  induction l with
  | nil => simp [insertSorted]
  | cons y ys ih =>
      rw [List.pairwise_cons] at hl
      obtain ⟨hy, hys⟩ := hl
      obtain ⟨ih1, ih2⟩ := ih hys
      unfold insertSorted
      split_ifs with hc
      · have hxy : toYearNumber P y.year ≤ toYearNumber P x.year := by
          rcases (compareProjects_le_iff P x y).mp hc with h | ⟨h, _⟩
          · exact le_of_lt h
          · exact le_of_eq h.symm
        refine ⟨?_, ?_⟩
        · rw [List.pairwise_cons]
          refine ⟨?_, List.pairwise_cons.mpr ⟨hy, hys⟩⟩
          intro z hz
          rcases List.mem_cons.mp hz with rfl | hz
          · exact hxy
          · exact le_trans (hy z hz) hxy
        · intro z hz
          rcases List.mem_cons.mp hz with rfl | hz
          · exact Or.inl rfl
          · exact Or.inr hz
      · have hyx : toYearNumber P x.year ≤ toYearNumber P y.year := by
          by_contra hlt
          push_neg at hlt
          exact hc ((compareProjects_le_iff P x y).mpr (Or.inl hlt))
        refine ⟨?_, ?_⟩
        · rw [List.pairwise_cons]
          refine ⟨?_, ih1⟩
          intro z hz
          rcases ih2 z hz with rfl | hz
          · exact hyx
          · exact hy z hz
        · intro z hz
          rcases List.mem_cons.mp hz with rfl | hz
          · exact Or.inr (List.mem_cons_self _ _)
          · rcases ih2 z hz with h | h
            · exact Or.inl h
            · exact Or.inr (List.mem_cons_of_mem _ h)

theorem sortedProjects_years (P : Platform) (projects : List Project) :
    (sortedProjects P projects).Pairwise
      (fun a b => toYearNumber P b.year ≤ toYearNumber P a.year) := by
  unfold sortedProjects sort
  induction projects with
  | nil => exact List.Pairwise.nil
  | cons x xs ih => exact (insertSorted_years P x _ ih).1

theorem sampleLocaleCompare_le_iff (s t : String) : sampleLocaleCompare s t ≤ 0 ↔ s ≤ t := by
  unfold sampleLocaleCompare
  rcases lt_trichotomy s t with h | h | h
  · simp [h, le_of_lt h]
  · subst h; simp
  · have h1 : ¬ s < t := not_lt.mpr (le_of_lt h)
    have h2 : s ≠ t := ne_of_gt h
    simp [h1, h2, not_le.mpr h]

theorem sampleLocaleCompare_total (s t : String) :
    sampleLocaleCompare s t ≤ 0 ∨ sampleLocaleCompare t s ≤ 0 := by
  simp only [sampleLocaleCompare_le_iff]
  exact le_total s t

theorem sampleLocaleCompare_trans (s t u : String) (h1 : sampleLocaleCompare s t ≤ 0)
    (h2 : sampleLocaleCompare t u ≤ 0) : sampleLocaleCompare s u ≤ 0 := by
  simp only [sampleLocaleCompare_le_iff] at *
  exact le_trans h1 h2

theorem insertSorted_nil {α : Type} (cmp : α → α → ℚ) (x : α) :
    insertSorted cmp x [] = [x] := rfl

theorem insertSorted_cons_le {α : Type} {cmp : α → α → ℚ} {x y : α} (ys : List α)
    (h : cmp x y ≤ 0) : insertSorted cmp x (y :: ys) = x :: y :: ys := by
  simp [insertSorted, h]

theorem insertSorted_cons_gt {α : Type} {cmp : α → α → ℚ} {x y : α} (ys : List α)
    (h : ¬ cmp x y ≤ 0) : insertSorted cmp x (y :: ys) = y :: insertSorted cmp x ys := by
  simp [insertSorted, h]

theorem sampleLocaleCompare_B_A : 0 < sampleLocaleCompare "B" "A" := by
  have h : ¬ sampleLocaleCompare "B" "A" ≤ 0 := by
    rw [sampleLocaleCompare_le_iff, not_le, String.lt_iff_toList_lt]
    decide
  exact not_le.mp h

/-- Claim C7.  With a `localeCompare` that is a total preorder, the cards of
the project grid are those of `sortedProjects`, which is a permutation of the
projects in which any two consecutive projects `a`, `b` have
`toYearNumber a.year > toYearNumber b.year`, or equal years and a title of `a`
that does not compare after that of `b`.  For years `[2020, "x", 2022, 2020]`
and titles `[B, C, A, A]` the order is `(2022, A)`, `(2020, A)`, `(2020, B)`,
`("x", C)`. -/
theorem renderProjects_sorted (P : Platform)
    (htotal : ∀ s t, P.localeCompare s t ≤ 0 ∨ P.localeCompare t s ≤ 0)
    (htrans : ∀ s t u, P.localeCompare s t ≤ 0 → P.localeCompare t u ≤ 0 →
      P.localeCompare s u ≤ 0)
    (projects : List Project) :
    renderProjects P projects = (sortedProjects P projects).map (createProjectCard P) ∧
    (sortedProjects P projects).Perm projects ∧
    (sortedProjects P projects).Chain' (fun a b =>
      toYearNumber P a.year > toYearNumber P b.year ∨
      (toYearNumber P a.year = toYearNumber P b.year ∧
        ¬ 0 < P.localeCompare (jsString P (nullish a.title (.str "")))
              (jsString P (nullish b.title (.str ""))))) ∧
    (P.stringToNumber "x" = .nan → 0 < P.localeCompare "B" "A" →
      sortedProjects P
        [{ title := .str "B", year := .num (.finite 2020) },
         { title := .str "C", year := .str "x" },
         { title := .str "A", year := .num (.finite 2022) },
         { title := .str "A", year := .num (.finite 2020) }] =
        [{ title := .str "A", year := .num (.finite 2022) },
         { title := .str "A", year := .num (.finite 2020) },
         { title := .str "B", year := .num (.finite 2020) },
         { title := .str "C", year := .str "x" }]) := by
  refine ⟨rfl, sort_perm _ _, ?_, ?_⟩
  · refine List.Pairwise.chain' ((sortedProjects_pairwise P htotal htrans projects).imp ?_)
    intro a b hab
    rcases (compareProjects_le_iff P a b).mp hab with h | ⟨h, ht⟩
    · exact Or.inl h
    · exact Or.inr ⟨h, not_lt.mpr ht⟩
  · intro hx hBA
    have hBA2 : ¬ P.localeCompare "B" "A" ≤ 0 := not_le.mpr hBA
    have y20 : toYearNumber P (.num (.finite 2020)) = 2020 := rfl
    have y22 : toYearNumber P (.num (.finite 2022)) = 2022 := rfl
    have yx : toYearNumber P (.str "x") = -1 := by simp [toYearNumber, jsNumber, hx]
    have c1 : compareProjects P ⟨.str "A", .num (.finite 2022), .undefined, [], .undefined, []⟩
        ⟨.str "A", .num (.finite 2020), .undefined, [], .undefined, []⟩ ≤ 0 := by
      rw [compareProjects_le_iff]; left; rw [y20, y22]; norm_num
    have c2 : ¬ compareProjects P ⟨.str "C", .str "x", .undefined, [], .undefined, []⟩
        ⟨.str "A", .num (.finite 2022), .undefined, [], .undefined, []⟩ ≤ 0 := by
      rw [compareProjects_le_iff, y22, yx]; norm_num
    have c3 : ¬ compareProjects P ⟨.str "C", .str "x", .undefined, [], .undefined, []⟩
        ⟨.str "A", .num (.finite 2020), .undefined, [], .undefined, []⟩ ≤ 0 := by
      rw [compareProjects_le_iff, y20, yx]; norm_num
    have c4 : ¬ compareProjects P ⟨.str "B", .num (.finite 2020), .undefined, [], .undefined, []⟩
        ⟨.str "A", .num (.finite 2022), .undefined, [], .undefined, []⟩ ≤ 0 := by
      rw [compareProjects_le_iff, y20, y22]; norm_num
    have c5 : ¬ compareProjects P ⟨.str "B", .num (.finite 2020), .undefined, [], .undefined, []⟩
        ⟨.str "A", .num (.finite 2020), .undefined, [], .undefined, []⟩ ≤ 0 := by
      rw [compareProjects_le_iff, y20]
      simpa [titleText, nullish, jsString] using hBA
    have c6 : compareProjects P ⟨.str "B", .num (.finite 2020), .undefined, [], .undefined, []⟩
        ⟨.str "C", .str "x", .undefined, [], .undefined, []⟩ ≤ 0 := by
      rw [compareProjects_le_iff]; left; rw [y20, yx]; norm_num
    show insertSorted _ _ (insertSorted _ _ (insertSorted _ _ (insertSorted _ _ []))) = _
    rw [insertSorted_nil, insertSorted_cons_le _ c1, insertSorted_cons_gt _ c2,
      insertSorted_cons_gt _ c3, insertSorted_nil, insertSorted_cons_gt _ c4,
      insertSorted_cons_gt _ c5, insertSorted_cons_le _ c6]

/-- Claim C7 in the sample browser, on the projects of the example. -/
theorem renderProjects_sorted_witness :
    (∀ s t, samplePlatform.localeCompare s t ≤ 0 ∨ samplePlatform.localeCompare t s ≤ 0) ∧
    (sortedProjects samplePlatform
        [{ title := .str "B", year := .num (.finite 2020) },
         { title := .str "C", year := .str "x" },
         { title := .str "A", year := .num (.finite 2022) },
         { title := .str "A", year := .num (.finite 2020) }]).Perm
        [{ title := .str "B", year := .num (.finite 2020) },
         { title := .str "C", year := .str "x" },
         { title := .str "A", year := .num (.finite 2022) },
         { title := .str "A", year := .num (.finite 2020) }] ∧
    sortedProjects samplePlatform
        [{ title := .str "B", year := .num (.finite 2020) },
         { title := .str "C", year := .str "x" },
         { title := .str "A", year := .num (.finite 2022) },
         { title := .str "A", year := .num (.finite 2020) }] =
        [{ title := .str "A", year := .num (.finite 2022) },
         { title := .str "A", year := .num (.finite 2020) },
         { title := .str "B", year := .num (.finite 2020) },
         { title := .str "C", year := .str "x" }] :=
  have h := renderProjects_sorted samplePlatform sampleLocaleCompare_total
    sampleLocaleCompare_trans
    [{ title := .str "B", year := .num (.finite 2020) },
     { title := .str "C", year := .str "x" },
     { title := .str "A", year := .num (.finite 2022) },
     { title := .str "A", year := .num (.finite 2020) }]
  ⟨sampleLocaleCompare_total, h.2.1, h.2.2.2 (by decide) sampleLocaleCompare_B_A⟩

/-- Claim C8, amended.  A year that `Number` does not turn into a finite
number, a missing year among them, has the sort key `-1`; and in the order of
rendering no project with such a year comes before a project whose key is
greater than `-1`, in particular none whose year is a number above `-1`. -/
theorem missing_year_sorts_after_positive (P : Platform) (projects : List Project) :
    (∀ value, (∀ n, jsNumber P value ≠ .finite n) → toYearNumber P value = -1) ∧
    toYearNumber P .undefined = -1 ∧
    (∀ n, toYearNumber P (.num (.finite n)) = n) ∧
    (sortedProjects P projects).Perm projects ∧
    (sortedProjects P projects).Pairwise (fun a b =>
      (∀ n, jsNumber P a.year ≠ .finite n) → ¬ (-1 < toYearNumber P b.year)) := by
  have hkey : ∀ value, (∀ n, jsNumber P value ≠ .finite n) → toYearNumber P value = -1 := by
    intro value hv
    unfold toYearNumber
    cases hn : jsNumber P value with
    | finite n => exact absurd hn (hv n)
    | nan => rfl
    | posInf => rfl
    | negInf => rfl
  refine ⟨hkey, rfl, fun n => rfl, sort_perm _ _, ?_⟩
  refine (sortedProjects_years P projects).imp ?_
  intro a b hab hmiss
  rw [hkey a.year hmiss] at hab
  exact not_lt.mpr hab

/-- Claim C8 as stated fails.  A project without a year is rendered before a
project whose year is the number `-5`; and a year that is `null` has the key
`0`, not `-1`. -/
theorem missing_year_before_negative_year :
    sortedProjects samplePlatform
      [{ title := .str "A", year := .num (.finite (-5)) },
       { title := .str "B", year := .undefined }] =
      [{ title := .str "B", year := .undefined },
       { title := .str "A", year := .num (.finite (-5)) }] ∧
    toYearNumber samplePlatform .null = 0 := by
  refine ⟨?_, rfl⟩
  simp [sortedProjects, sort, insertSorted, compareProjects, toYearNumber, jsNumber]
  norm_num

/-! ## Lemmas and theorems: loading the five documents -/

theorem loadJson_badStatus {α : Type} (path : String) {o : FetchOutcome α} {status : Nat}
    (h : o.badStatus = some status) :
    loadJson path o = .error ("Failed to load " ++ path ++ " (" ++ toString status ++ ")") := by
  cases o with
  | networkError m => simp [FetchOutcome.badStatus] at h
  | response st json =>
      simp only [FetchOutcome.badStatus] at h
      split_ifs at h with hc
      have hst : st = status := by simpa using h
      subst hst
      have : (decide (st ≥ 200) && decide (st < 300)) = false := by
        rw [← Bool.not_eq_true]
        intro hh
        apply hc
        simpa using hh
      simp [loadJson, this]

theorem loadJson_ok_iff {α : Type} (path : String) (o : FetchOutcome α) (v : α) :
    loadJson path o = .ok v ↔ o.document = some v := by
  cases o with
  | networkError m => simp [loadJson, FetchOutcome.document]
  | response st json =>
      by_cases hc : 200 ≤ st ∧ st < 300
      · have : (decide (st ≥ 200) && decide (st < 300)) = true := by simpa using hc
        cases json with
        | ok value => simp [loadJson, FetchOutcome.document, this, hc]
        | error e => simp [loadJson, FetchOutcome.document, this]
      · have : (decide (st ≥ 200) && decide (st < 300)) = false := by
          rw [← Bool.not_eq_true]
          intro hh
          apply hc
          simpa using hh
        cases json with
        | ok value => simp [loadJson, FetchOutcome.document, this, hc]
        | error e => simp [loadJson, FetchOutcome.document, this]

theorem loadJson_error_answered {α : Type} (path : String) {o : FetchOutcome α} {r : String}
    (h : loadJson path o = .error r) (ha : o.answered = true) :
    ∃ status, o.badStatus = some status ∧
      r = "Failed to load " ++ path ++ " (" ++ toString status ++ ")" := by
  cases o with
  | networkError m => simp [FetchOutcome.answered] at ha
  | response st json =>
      by_cases hc : 200 ≤ st ∧ st < 300
      · have hd : (decide (st ≥ 200) && decide (st < 300)) = true := by simpa using hc
        cases json with
        | ok value => simp [loadJson, hd] at h
        | error e =>
            have hd2 : (decide (200 ≤ st) && decide (st < 300)) = true := by simpa using hc
            simp [FetchOutcome.answered, hd2] at ha
      · have hb : (FetchOutcome.response st json).badStatus = some st := by
          simp [FetchOutcome.badStatus, hc]
        refine ⟨st, hb, ?_⟩
        rw [loadJson_badStatus path hb] at h
        cases h
        rfl

theorem firstRejection_none_iff {α : Type} (ps : List (Settled α)) :
    firstRejection ps = none ↔ ∀ p ∈ ps, ∃ v, p.result = .ok v := by
  induction ps with
  | nil => simp [firstRejection]
  | cons p rest ih =>
      unfold firstRejection
      cases hp : p.result with
      | error reason =>
          cases hr : firstRejection rest with
          | none => simp [hp]
          | some tr =>
              obtain ⟨t, later⟩ := tr
              simp only [List.mem_cons, forall_eq_or_imp, hp]
              split_ifs <;> simp
      | ok v =>
          simp only [List.mem_cons, forall_eq_or_imp, hp]
          simp [ih]

theorem firstRejection_some_mem {α : Type} (ps : List (Settled α)) {t : Nat} {r : String}
    (h : firstRejection ps = some (t, r)) : ∃ p ∈ ps, p.result = .error r := by
  induction ps generalizing t r with
  | nil => simp [firstRejection] at h
  | cons p rest ih =>
      unfold firstRejection at h
      cases hp : p.result with
      | error reason =>
          rw [hp] at h
          cases hr : firstRejection rest with
          | none =>
              rw [hr] at h
              simp only [Option.some.injEq, Prod.mk.injEq] at h
              exact ⟨p, List.mem_cons_self _ _, by rw [hp, h.2]⟩
          | some tr =>
              obtain ⟨t2, later⟩ := tr
              rw [hr] at h
              simp only at h
              split_ifs at h
              · simp only [Option.some.injEq, Prod.mk.injEq] at h
                exact ⟨p, List.mem_cons_self _ _, by rw [hp, h.2]⟩
              · simp only [Option.some.injEq, Prod.mk.injEq] at h
                obtain ⟨q, hq, hqr⟩ := ih hr
                exact ⟨q, List.mem_cons_of_mem _ hq, by rw [hqr, h.2]⟩
      | ok v =>
          rw [hp] at h
          obtain ⟨q, hq, hqr⟩ := ih h
          exact ⟨q, List.mem_cons_of_mem _ hq, hqr⟩

theorem loadAllContent_eq {α : Type} (loads : Loads α) :
    loadAllContent loads =
      match firstRejection loads.settled with
      | some (_, reason) => .error reason
      | none =>
          .ok ⟨(fulfilledValues loads.settled)[0]?, (fulfilledValues loads.settled)[1]?,
            (fulfilledValues loads.settled)[2]?, (fulfilledValues loads.settled)[3]?,
            (fulfilledValues loads.settled)[4]?⟩ := by
  have h : loadAllContent loads =
      match promiseAll loads.settled with
      | .error reason => .error reason
      | .ok values => .ok ⟨values[0]?, values[1]?, values[2]?, values[3]?, values[4]?⟩ := rfl
  rw [h]
  unfold promiseAll
  cases firstRejection loads.settled with
  | none => rfl
  | some tr => rfl

theorem loadAllContent_ok_iff {α : Type} (loads : Loads α) (data : Bundle α) :
    loadAllContent loads = .ok data ↔
      ∃ site links about projects skills,
        loads.site.outcome.document = some site ∧
        loads.links.outcome.document = some links ∧
        loads.about.outcome.document = some about ∧
        loads.projects.outcome.document = some projects ∧
        loads.skills.outcome.document = some skills ∧
        data = ⟨some site, some links, some about, some projects, some skills⟩ := by
  rw [loadAllContent_eq]
  constructor
  · intro h
    cases hf : firstRejection loads.settled with
    | some tr => rw [hf] at h; cases h
    | none =>
        rw [hf] at h
        have hall := (firstRejection_none_iff _).mp hf
        simp only [Loads.settled, Loads.documents, List.map_cons, List.map_nil, List.mem_cons,
          List.mem_singleton, forall_eq_or_imp, forall_eq, List.not_mem_nil, false_implies,
          implies_true, and_true] at hall
        obtain ⟨⟨v1, h1⟩, ⟨v2, h2⟩, ⟨v3, h3⟩, ⟨v4, h4⟩, ⟨v5, h5⟩⟩ := hall
        refine ⟨v1, v2, v3, v4, v5, (loadJson_ok_iff _ _ _).mp h1, (loadJson_ok_iff _ _ _).mp h2,
          (loadJson_ok_iff _ _ _).mp h3, (loadJson_ok_iff _ _ _).mp h4,
          (loadJson_ok_iff _ _ _).mp h5, ?_⟩
        simp only [Loads.settled, Loads.documents, List.map_cons, List.map_nil, fulfilledValues,
          h1, h2, h3, h4, h5] at h
        cases h
        rfl
  · rintro ⟨v1, v2, v3, v4, v5, h1, h2, h3, h4, h5, rfl⟩
    have e1 := (loadJson_ok_iff siteJsonPath _ _).mpr h1
    have e2 := (loadJson_ok_iff linksJsonPath _ _).mpr h2
    have e3 := (loadJson_ok_iff aboutJsonPath _ _).mpr h3
    have e4 := (loadJson_ok_iff projectsJsonPath _ _).mpr h4
    have e5 := (loadJson_ok_iff skillsJsonPath _ _).mpr h5
    have hf : firstRejection loads.settled = none := by
      simp [Loads.settled, Loads.documents, firstRejection, e1, e2, e3, e4, e5]
    rw [hf]
    simp [Loads.settled, Loads.documents, fulfilledValues, e1, e2, e3, e4, e5]

theorem loadAllContent_error_mem {α : Type} (loads : Loads α) {r : String}
    (h : loadAllContent loads = .error r) :
    ∃ d ∈ loads.documents, loadJson d.1 d.2.outcome = .error r := by
  rw [loadAllContent_eq] at h
  cases hf : firstRejection loads.settled with
  | none => rw [hf] at h; cases h
  | some tr =>
      obtain ⟨t, reason⟩ := tr
      rw [hf] at h
      simp only [Except.error.injEq] at h
      subst h
      obtain ⟨p, hp, hpr⟩ := firstRejection_some_mem _ hf
      simp only [Loads.settled, List.mem_map] at hp
      obtain ⟨d, hd, rfl⟩ := hp
      exact ⟨d, hd, hpr⟩

theorem loadAllContent_fails {α : Type} (loads : Loads α)
    (h : ∃ d ∈ loads.documents, d.2.outcome.badStatus ≠ none) :
    ∃ m, loadAllContent loads = .error m := by
  obtain ⟨d, hd, hb⟩ := h
  cases hres : loadAllContent loads with
  | error m => exact ⟨m, rfl⟩
  | ok data =>
      exfalso
      rw [loadAllContent_eq] at hres
      cases hf : firstRejection loads.settled with
      | some tr => rw [hf] at hres; cases hres
      | none =>
          have hall := (firstRejection_none_iff _).mp hf
          obtain ⟨status, hs⟩ := Option.ne_none_iff_exists'.mp hb
          have hmem : (⟨d.2.settledAt, loadJson d.1 d.2.outcome⟩ : Settled α) ∈ loads.settled :=
            List.mem_map.mpr ⟨d, hd, rfl⟩
          obtain ⟨v, hv⟩ := hall _ hmem
          simp only [loadJson_badStatus d.1 hs] at hv
          cases hv

/-- Claim C10, amended.  If a response has a status outside `[200, 300)`,
`loadAllContent` fails and the page shows the escaped error page for its
message, `renderSite` not being called; when moreover every fetch was answered
and every 2xx body parsed, the message is `Failed to load <path> (<status>)`
for one of the failing documents.  `renderSite` is called exactly when all
five responses are 2xx and parse, with each document under its own name. -/
theorem loadPage_all_or_nothing {α : Type} (loads : Loads α) :
    ((∃ d ∈ loads.documents, d.2.outcome.badStatus ≠ none) →
      ∃ m, loadAllContent loads = .error m ∧ loadPage loads = .errorPage (buildErrorHtml m)) ∧
    ((∃ d ∈ loads.documents, d.2.outcome.badStatus ≠ none) →
      (∀ d ∈ loads.documents, d.2.outcome.answered = true) →
      ∃ d ∈ loads.documents, ∃ status, d.2.outcome.badStatus = some status ∧
        loadAllContent loads =
          .error ("Failed to load " ++ d.1 ++ " (" ++ toString status ++ ")")) ∧
    (∀ data, loadPage loads = .rendered data ↔
      ∃ site links about projects skills,
        loads.site.outcome.document = some site ∧
        loads.links.outcome.document = some links ∧
        loads.about.outcome.document = some about ∧
        loads.projects.outcome.document = some projects ∧
        loads.skills.outcome.document = some skills ∧
        data = ⟨some site, some links, some about, some projects, some skills⟩) := by
  refine ⟨?_, ?_, ?_⟩
  · intro h
    obtain ⟨m, hm⟩ := loadAllContent_fails loads h
    exact ⟨m, hm, by simp [loadPage, hm]⟩
  · intro h hans
    obtain ⟨m, hm⟩ := loadAllContent_fails loads h
    obtain ⟨d, hd, hr⟩ := loadAllContent_error_mem loads hm
    obtain ⟨status, hs, rfl⟩ := loadJson_error_answered d.1 hr (hans d hd)
    exact ⟨d, hd, status, hs, hm⟩
  · intro data
    rw [← loadAllContent_ok_iff]
    unfold loadPage
    cases loadAllContent loads with
    | error m => simp
    | ok b => simp

/-- Claim C10 as stated fails.  `site.json` answers 200 with a body that does
not parse and settles first, `links.json` answers 500 afterwards: the batch
fails with the parse error, which names neither a path nor a status. -/
theorem loadAllContent_other_rejection_first :
    loadAllContent (α := Unit)
      { site := ⟨.response 200 (.error "Unexpected end of JSON input"), 1⟩,
        links := ⟨.response 500 (.ok ()), 2⟩,
        about := ⟨.response 200 (.ok ()), 3⟩,
        projects := ⟨.response 200 (.ok ()), 3⟩,
        skills := ⟨.response 200 (.ok ()), 3⟩ } = .error "Unexpected end of JSON input" ∧
    (∀ (path : String) (status : Nat),
      "Failed to load " ++ path ++ " (" ++ toString status ++ ")"
        ≠ "Unexpected end of JSON input") := by
  refine ⟨rfl, ?_⟩
  intro path status h
  have := congrArg String.data h
  simp at this

end Portfolio
